import Mathlib

/-!
Verification of `interpreter/decorators.go` (cel-go interpreter decorators):
the tracing decorator (`decObserveEval` / `evalWatch`), the
exhaustive-evaluation decorator (`decDisableShortcircuits` and the
`evalExhaustiveOr` / `evalExhaustiveAnd` / `evalExhaustiveConditional` /
`evalExhaustiveFold` node kinds), and the optimizer decorator
(`decOptimize`, `maybeBuildListLiteral`, `maybeBuildMapLiteral`,
`maybeOptimizeSetMembership`, `evalSetMembership`).

The decorator source is embedded faithfully.  The collaborators it relies
upon (the value model of `common/types`, the `Activation` chain and the
base node kinds of the interpreter) live outside the provided source
excerpt and are modelled from the specification where needed; each such
definition says so in its doc comment.
-/

namespace CelGo

/-- Modelled from the spec: the runtime value model (`ref.Val` of
`common/types`).  An opaque tagged union with ordinary typed values
(bool, int, uint, string, list, map) and the two sentinel kinds
`Error(message)` and `Unknown(identifierSet)`. -/
inductive RefVal where
  | boolV (b : Bool)
  | intV (i : Int)
  | uintV (u : Nat)
  | strV (s : String)
  | listV (elems : List RefVal)
  | mapV (entries : List (RefVal × RefVal))
  | errV (msg : String)
  | unknownV (ids : List Int)

mutual

/-- Modelled from the spec: runtime-value equality (the equality+hash
contract Go uses for `map[ref.Val]ref.Val` keys), structural over the
tagged union. -/
def RefVal.beq : RefVal → RefVal → Bool
  | .boolV a, .boolV b => a == b
  | .intV a, .intV b => a == b
  | .uintV a, .uintV b => a == b
  | .strV a, .strV b => a == b
  | .listV a, .listV b => RefVal.beqList a b
  | .mapV a, .mapV b => RefVal.beqEntries a b
  | .errV a, .errV b => a == b
  | .unknownV a, .unknownV b => a == b
  | _, _ => false

/-- Element-wise equality of value lists. -/
def RefVal.beqList : List RefVal → List RefVal → Bool
  | [], [] => true
  | x :: xs, y :: ys => RefVal.beq x y && RefVal.beqList xs ys
  | _, _ => false

/-- Element-wise equality of entry lists. -/
def RefVal.beqEntries : List (RefVal × RefVal) → List (RefVal × RefVal) → Bool
  | [], [] => true
  | x :: xs, y :: ys => RefVal.beq x.1 y.1 && RefVal.beq x.2 y.2 && RefVal.beqEntries xs ys
  | _, _ => false

end

namespace RefVal

/-- Modelled from the spec: `Type().TypeName()` of a runtime value. -/
def typeName : RefVal → String
  | .boolV _ => "bool"
  | .intV _ => "int"
  | .uintV _ => "uint"
  | .strV _ => "string"
  | .listV _ => "list"
  | .mapV _ => "map"
  | .errV _ => "error"
  | .unknownV _ => "unknown"

/-- The Go type assertion `v.(types.Bool)`: `some b` when the value is the
boolean `b`, `none` otherwise. -/
def asBool : RefVal → Option Bool
  | .boolV b => some b
  | _ => none

/-- Whether the Go type assertion `v.(types.Bool)` succeeds (`ok`). -/
def isBool : RefVal → Bool
  | .boolV _ => true
  | _ => false

/-- Modelled from the spec: `types.IsUnknown`. -/
def isUnknown : RefVal → Bool
  | .unknownV _ => true
  | _ => false

/-- Modelled from the spec: `types.IsError`. -/
def isError : RefVal → Bool
  | .errV _ => true
  | _ => false

/-- Modelled from the spec: `types.IsUnknownOrError`. -/
def isUnknownOrError : RefVal → Bool
  | .errV _ => true
  | .unknownV _ => true
  | _ => false

/-- Modelled from the spec: `types.IsPrimitiveType` — bool, int, uint and
string values are primitive (hashable, usable as set/map keys); aggregate
values and the sentinels are not. -/
def isPrimitiveType : RefVal → Bool
  | .boolV _ => true
  | .intV _ => true
  | .uintV _ => true
  | .strV _ => true
  | _ => false

/-- Modelled from the spec: `types.ValOrErr(val, msg)` — an Error "keyed
off" the given value: the value itself when it is already an Error or an
Unknown sentinel (sentinels propagate), otherwise a fresh Error carrying
the message. -/
def valOrErr (val : RefVal) (msg : String) : RefVal :=
  if val.isUnknownOrError then val else .errV msg

/-- Modelled from the spec: the Go type assertion `v.(traits.Lister)`
followed by element iteration — only list values are `Lister`s. -/
def asLister : RefVal → Option (List RefVal)
  | .listV elems => some elems
  | _ => none

/-- Modelled from the spec: the elements yielded by `Iterator()` for a
value whose type has the `traits.IterableType` trait; list values yield
their elements, map values their keys, all other values are not
iterable. -/
def iterElems : RefVal → Option (List RefVal)
  | .listV elems => some elems
  | .mapV entries => some (entries.map Prod.fst)
  | _ => none

end RefVal

/-- Modelled from the spec: a Go `map[ref.Val]ref.Val` as an association
list; lookup finds the unique entry for a key. -/
def mapLookup (m : List (RefVal × RefVal)) (k : RefVal) : Option RefVal :=
  match m with
  | [] => none
  | p :: rest => if RefVal.beq p.1 k then some p.2 else mapLookup rest k

/-- Modelled from the spec: Go map insertion — overwrite the entry when
the key is already present, append otherwise. -/
def mapInsert (m : List (RefVal × RefVal)) (k v : RefVal) : List (RefVal × RefVal) :=
  match m with
  | [] => [(k, v)]
  | p :: rest => if RefVal.beq p.1 k then (k, v) :: rest else p :: mapInsert rest k v

/-- Modelled from the spec: the `Activation` — a chain of variable-binding
scopes; `varAct parent name val` is a `varActivation` binding one name
(shadowing the parent), `empty` is `EmptyActivation()`. -/
inductive Act where
  | empty
  | varAct (parent : Act) (name : String) (val : RefVal)

/-- Modelled from the spec: `ResolveName` — the child scope shadows the
parent. -/
def Act.resolveName : Act → String → Option RefVal
  | .empty, _ => none
  | .varAct p n v, name => if name = n then some v else p.resolveName name

/-- Modelled from the spec: `overloads.InList`, the overload-tag constant
identifying the list-membership test. -/
def inListOverload : String := "in_list"

/-- The interpretable tree.  Node kinds `evalSetMembership`, `evalWatch`,
`evalExhaustiveOr`, `evalExhaustiveAnd`, `evalExhaustiveConditional` and
`evalExhaustiveFold` are the structs declared in
`interpreter/decorators.go`; the base kinds (`evalConst`, `evalIdent`,
`evalOr`, `evalAnd`, `evalConditional`, `evalBinary`, `evalList`,
`evalMap`, `evalFold`) are modelled from the spec's node table (the
observer of a `Watch` node is kept outside the tree: observations are
collected in an evaluation trace). -/
inductive Interp where
  | evalConst (id : Int) (val : RefVal)
  | evalIdent (id : Int) (name : String)
  | evalOr (id : Int) (lhs rhs : Interp)
  | evalAnd (id : Int) (lhs rhs : Interp)
  | evalConditional (id : Int) (expr truthy falsy : Interp)
  | evalBinary (id : Int) (overload : String) (lhs rhs : Interp)
  | evalList (id : Int) (elems : List Interp)
  | evalMap (id : Int) (keys : List Interp) (vals : List Interp)
  | evalFold (id : Int) (accuVar iterVar : String)
      (iterRange accu cond step result : Interp)
  | evalExhaustiveOr (id : Int) (lhs rhs : Interp)
  | evalExhaustiveAnd (id : Int) (lhs rhs : Interp)
  | evalExhaustiveConditional (id : Int) (expr truthy falsy : Interp)
  | evalExhaustiveFold (id : Int) (accuVar iterVar : String)
      (iterRange accu cond step result : Interp)
  | evalSetMembership (inst : Interp) (arg : Interp) (argTypeName : String)
      (valueSet : List (RefVal × RefVal))
  | evalWatch (inst : Interp)

/-- The `ID()` method of each node kind.  `evalSetMembership.ID` and `evalWatch.ID`
delegate to the wrapped node (decorators.go); the remaining kinds return
their own `id` field. -/
def Interp.ID : Interp → Int
  | .evalConst id _ => id
  | .evalIdent id _ => id
  | .evalOr id _ _ => id
  | .evalAnd id _ _ => id
  | .evalConditional id _ _ _ => id
  | .evalBinary id _ _ _ => id
  | .evalList id _ => id
  | .evalMap id _ _ => id
  | .evalFold id _ _ _ _ _ _ _ => id
  | .evalExhaustiveOr id _ _ => id
  | .evalExhaustiveAnd id _ _ => id
  | .evalExhaustiveConditional id _ _ _ => id
  | .evalExhaustiveFold id _ _ _ _ _ _ _ => id
  | .evalSetMembership inst _ _ _ => inst.ID
  | .evalWatch inst => inst.ID

/-- An observation trace: the `(node id, value)` pairs an `evalWatch`
node delivers to its observer, in invocation order. -/
abbrev Trace := List (Int × RefVal)

/-- The loop of `evalExhaustiveFold.Eval` (decorators.go): for each range
element, bind the iteration variable in the scratch scope chained under
the accumulator scope, evaluate the loop condition (result discarded —
"don't terminate the loop as this is exhaustive eval!"), then evaluate
the step into the accumulator variable.  `condF`/`stepF` evaluate
`fold.cond`/`fold.step` against a scope. -/
def foldLoop (condF stepF : Act → RefVal × Trace) (ctx : Act) (accuVar iterVar : String) :
    List RefVal → RefVal → Trace → RefVal × Trace
  | [], a, t => (a, t)
  | v :: rest, a, t =>
    let scope := Act.varAct (Act.varAct ctx accuVar a) iterVar v
    let cres := condF scope
    let sres := stepF scope
    foldLoop condF stepF ctx accuVar iterVar rest sres.1 (t ++ cres.2 ++ sres.2)

/-- Modelled from the spec: the loop of the short-circuiting `evalFold`,
which stops iterating as soon as the loop condition evaluates to boolean
False and otherwise matches the exhaustive twin. -/
def shortFoldLoop (condF stepF : Act → RefVal × Trace) (ctx : Act) (accuVar iterVar : String) :
    List RefVal → RefVal → Trace → RefVal × Trace
  | [], a, t => (a, t)
  | v :: rest, a, t =>
    let scope := Act.varAct (Act.varAct ctx accuVar a) iterVar v
    let cres := condF scope
    match cres.1 with
    | .boolV false => (a, t ++ cres.2)
    | _ =>
      let sres := stepF scope
      shortFoldLoop condF stepF ctx accuVar iterVar rest sres.1 (t ++ cres.2 ++ sres.2)

/-- Modelled from the spec: the external Binary-evaluation collaborator
dispatched by `evalBinary` — only the list-membership overload is given a
meaning here (linear scan); it is out of the decorators' scope. -/
def binaryDispatch (overload : String) (l r : RefVal) : RefVal :=
  if l.isUnknownOrError then l
  else if r.isUnknownOrError then r
  else if overload = inListOverload then
    match r.iterElems with
    | some elems => .boolV (elems.any (fun e => RefVal.beq e l))
    | none => RefVal.valOrErr l "no such overload"
  else .errV "no such overload"

mutual

/-- Evaluation of every node kind, paired with the trace of observer
invocations performed during evaluation.  The `evalExhaustiveOr`,
`evalExhaustiveAnd`, `evalExhaustiveConditional`, `evalExhaustiveFold`,
`evalSetMembership` and `evalWatch` cases translate their `Eval` methods
in `interpreter/decorators.go` line by line.  Modelled from the spec: the
base node kinds (`evalConst`, `evalIdent`, `evalOr`, `evalAnd`,
`evalConditional`, `evalBinary`, `evalList`, `evalMap`, `evalFold`),
whose `Eval` methods live outside the provided source. -/
def Eval : Interp → Act → RefVal × Trace
  | .evalConst _ val, _ => (val, [])
  | .evalIdent _ name, ctx =>
    (match ctx.resolveName name with
     | some v => v
     | none => .errV ("no such attribute: " ++ name), [])
  | .evalOr _ lhs rhs, ctx =>
    let l := Eval lhs ctx
    match l.1.asBool with
    | some true => (.boolV true, l.2)
    | _ =>
      let r := Eval rhs ctx
      let res :=
        if r.1.asBool = some true then RefVal.boolV true
        else if l.1.isBool && r.1.isBool then RefVal.boolV false
        else if l.1.isUnknown then l.1
        else if r.1.isUnknown then r.1
        else RefVal.valOrErr l.1 "no such overload"
      (res, l.2 ++ r.2)
  | .evalAnd _ lhs rhs, ctx =>
    let l := Eval lhs ctx
    match l.1.asBool with
    | some false => (.boolV false, l.2)
    | _ =>
      let r := Eval rhs ctx
      let res :=
        if r.1.asBool = some false then RefVal.boolV false
        else if l.1.isBool && r.1.isBool then RefVal.boolV true
        else if l.1.isUnknown then l.1
        else if r.1.isUnknown then r.1
        else RefVal.valOrErr l.1 "no such overload"
      (res, l.2 ++ r.2)
  | .evalConditional _ expr truthy falsy, ctx =>
    let c := Eval expr ctx
    match c.1.asBool with
    | none => (RefVal.valOrErr c.1 "no such overload", c.2)
    | some true => let t := Eval truthy ctx; (t.1, c.2 ++ t.2)
    | some false => let f := Eval falsy ctx; (f.1, c.2 ++ f.2)
  | .evalBinary _ overload lhs rhs, ctx =>
    let l := Eval lhs ctx
    let r := Eval rhs ctx
    (binaryDispatch overload l.1 r.1, l.2 ++ r.2)
  | .evalList _ elems, ctx =>
    match evalElems elems ctx with
    | (.inl vs, t) => (.listV vs, t)
    | (.inr s, t) => (s, t)
  | .evalMap _ keys vals, ctx =>
    match evalEntries keys vals ctx with
    | (.inl es, t) => (.mapV (es.foldl (fun m p => mapInsert m p.1 p.2) []), t)
    | (.inr s, t) => (s, t)
  | .evalFold _ accuVar iterVar iterRange accu cond step result, ctx =>
    let r := Eval iterRange ctx
    match r.1.iterElems with
    | none =>
      (RefVal.valOrErr r.1 ("got " ++ r.1.typeName ++ ", expected iterable type"), r.2)
    | some elems =>
      let a0 := Eval accu ctx
      let lp := shortFoldLoop (fun s => Eval cond s) (fun s => Eval step s)
        ctx accuVar iterVar elems a0.1 []
      let res := Eval result (Act.varAct ctx accuVar lp.1)
      (res.1, r.2 ++ a0.2 ++ lp.2 ++ res.2)
  | .evalExhaustiveOr _ lhs rhs, ctx =>
    let l := Eval lhs ctx
    let r := Eval rhs ctx
    let res :=
      if l.1.asBool = some true then RefVal.boolV true
      else if r.1.asBool = some true then RefVal.boolV true
      else if l.1.isBool && r.1.isBool then RefVal.boolV false
      else if l.1.isUnknown then l.1
      else if r.1.isUnknown then r.1
      else RefVal.valOrErr l.1 "no such overload"
    (res, l.2 ++ r.2)
  | .evalExhaustiveAnd _ lhs rhs, ctx =>
    let l := Eval lhs ctx
    let r := Eval rhs ctx
    let res :=
      if l.1.asBool = some false then RefVal.boolV false
      else if r.1.asBool = some false then RefVal.boolV false
      else if l.1.isBool && r.1.isBool then RefVal.boolV true
      else if l.1.isUnknown then l.1
      else if r.1.isUnknown then r.1
      else RefVal.valOrErr l.1 "no such overload"
    (res, l.2 ++ r.2)
  | .evalExhaustiveConditional _ expr truthy falsy, ctx =>
    let c := Eval expr ctx
    let t := Eval truthy ctx
    let f := Eval falsy ctx
    let res :=
      match c.1.asBool with
      | none => RefVal.valOrErr c.1 "no such overload"
      | some true => t.1
      | some false => f.1
    (res, c.2 ++ t.2 ++ f.2)
  | .evalExhaustiveFold _ accuVar iterVar iterRange accu cond step result, ctx =>
    let r := Eval iterRange ctx
    match r.1.iterElems with
    | none =>
      (RefVal.valOrErr r.1 ("got " ++ r.1.typeName ++ ", expected iterable type"), r.2)
    | some elems =>
      let a0 := Eval accu ctx
      let lp := foldLoop (fun s => Eval cond s) (fun s => Eval step s)
        ctx accuVar iterVar elems a0.1 []
      let res := Eval result (Act.varAct ctx accuVar lp.1)
      (res.1, r.2 ++ a0.2 ++ lp.2 ++ res.2)
  | .evalSetMembership _ arg argTypeName valueSet, ctx =>
    let v := Eval arg ctx
    let res :=
      if v.1.typeName ≠ argTypeName then RefVal.valOrErr v.1 "no such overload"
      else
        match mapLookup valueSet v.1 with
        | some ret => ret
        | none => RefVal.boolV false
    (res, v.2)
  | .evalWatch inst, ctx =>
    let v := Eval inst ctx
    (v.1, v.2 ++ [(inst.ID, v.1)])
termination_by i _ => sizeOf i

/-- Modelled from the spec: `evalList.Eval`'s element loop — evaluate the
elements in order, returning the first Unknown-or-Error value encountered
(remaining elements are not evaluated). -/
def evalElems : List Interp → Act → (List RefVal ⊕ RefVal) × Trace
  | [], _ => (.inl [], [])
  | e :: rest, ctx =>
    let v := Eval e ctx
    if v.1.isUnknownOrError then (.inr v.1, v.2)
    else
      match evalElems rest ctx with
      | (.inl vs, t) => (.inl (v.1 :: vs), v.2 ++ t)
      | (.inr s, t) => (.inr s, v.2 ++ t)
termination_by l _ => sizeOf l

/-- Modelled from the spec: `evalMap.Eval`'s entry loop — evaluate each
key then its index-aligned value, returning the first Unknown-or-Error
encountered. -/
def evalEntries : List Interp → List Interp → Act → (List (RefVal × RefVal) ⊕ RefVal) × Trace
  | [], _, _ => (.inl [], [])
  | _ :: _, [], _ => (.inl [], [])
  | k :: ks, v :: vs, ctx =>
    let kv := Eval k ctx
    if kv.1.isUnknownOrError then (.inr kv.1, kv.2)
    else
      let vv := Eval v ctx
      if vv.1.isUnknownOrError then (.inr vv.1, kv.2 ++ vv.2)
      else
        match evalEntries ks vs ctx with
        | (.inl es, t) => (.inl ((kv.1, vv.1) :: es), kv.2 ++ vv.2 ++ t)
        | (.inr s, t) => (.inr s, kv.2 ++ vv.2 ++ t)
termination_by ks vs _ => sizeOf ks + sizeOf vs

end

/-! ## The three decorators

Go's `InterpretableDecorator` is `func(Interpretable) (Interpretable, error)`;
it is embedded as `Interp → Except String Interp`, an `.ok` result being a
`(node, nil)` return. -/

/-- Go `decObserveEval` (decorators.go): wrap the node in an `evalWatch`
recording evaluation state (the observer callback itself is represented by
the evaluation trace). -/
def decObserveEval (i : Interp) : Except String Interp :=
  .ok (.evalWatch i)

/-- Go `decDisableShortcircuits` (decorators.go): replace the four
short-circuiting node kinds by their exhaustive twins, copying every
field; all other kinds pass through unchanged. -/
def decDisableShortcircuits : Interp → Except String Interp
  | .evalOr id lhs rhs => .ok (.evalExhaustiveOr id lhs rhs)
  | .evalAnd id lhs rhs => .ok (.evalExhaustiveAnd id lhs rhs)
  | .evalConditional id expr truthy falsy =>
    .ok (.evalExhaustiveConditional id expr truthy falsy)
  | .evalFold id accuVar iterVar iterRange accu cond step result =>
    .ok (.evalExhaustiveFold id accuVar iterVar iterRange accu cond step result)
  | i => .ok i

/-- The Go type test `elem.(*evalConst)` used by the literal-folding
optimizations. -/
def isConstNode : Interp → Bool
  | .evalConst _ _ => true
  | _ => false

/-- Go `maybeBuildListLiteral` (decorators.go): when every element of the
list node is a const, evaluate the list once against the empty activation
and replace the node by a const with the list node's id. -/
def maybeBuildListLiteral (i : Interp) (id : Int) (elems : List Interp) :
    Except String Interp :=
  if elems.all isConstNode then
    .ok (.evalConst id (Eval (.evalList id elems) Act.empty).1)
  else .ok i

/-- The key/value const check of `maybeBuildMapLiteral`: every key and its
index-aligned value must be a const (keys and vals are index-aligned by
invariant I3; a missing value position cannot be const-folded). -/
def allConstEntries : List Interp → List Interp → Bool
  | [], _ => true
  | _ :: _, [] => false
  | k :: ks, v :: vs => isConstNode k && isConstNode v && allConstEntries ks vs

/-- Go `maybeBuildMapLiteral` (decorators.go): when every key and every value
of the map node is a const, evaluate the map once against the empty
activation and replace the node by a const with the map node's id. -/
def maybeBuildMapLiteral (i : Interp) (id : Int) (keys vals : List Interp) :
    Except String Interp :=
  if allConstEntries keys vals then
    .ok (.evalConst id (Eval (.evalMap id keys vals) Act.empty).1)
  else .ok i

/-- The build-time element loop of `maybeOptimizeSetMembership`
(decorators.go): walk the constant list once; fail (`none`, meaning "leave
the node unchanged") on the first non-primitive element or on an element
whose type name differs from the first element's; otherwise accumulate
`elem ↦ True` into the value set and return it with the shared type
name. -/
def buildValueSet : List RefVal → Option String → List (RefVal × RefVal) →
    Option (String × List (RefVal × RefVal))
  | [], typ, acc =>
    match typ with
    | some t => some (t, acc)
    | none => none
  | elem :: rest, typ, acc =>
    if ¬ elem.isPrimitiveType then none
    else
      match typ with
      | none => buildValueSet rest (some elem.typeName) (mapInsert acc elem (.boolV true))
      | some t =>
        if elem.typeName ≠ t then none
        else buildValueSet rest (some t) (mapInsert acc elem (.boolV true))

/-- Go `maybeOptimizeSetMembership` (decorators.go).  `i` is the whole
binary node, `inlistId`/`lhs`/`rhs` its fields.  The Go code asserts
`l.val.(traits.Lister)` without a check — a node flagged with the InList
overload always carries a list-convertible const — so a non-list const
(which would panic in Go) is mapped to the unchanged node here. -/
def maybeOptimizeSetMembership (i : Interp) (inlistId : Int) (lhs rhs : Interp) :
    Except String Interp :=
  match rhs with
  | .evalConst _ v =>
    match v.asLister with
    | none => .ok i
    | some list =>
      if list.isEmpty then .ok (.evalConst inlistId (.boolV false))
      else
        match buildValueSet list none [] with
        | none => .ok i
        | some (t, vs) => .ok (.evalSetMembership i lhs t vs)
  | _ => .ok i

/-- Go `decOptimize` (decorators.go): fold constant list and map literals and
convert InList-tagged binary calls into set-membership tests when
possible; all other kinds pass through unchanged. -/
def decOptimize : Interp → Except String Interp
  | i@(.evalList id elems) => maybeBuildListLiteral i id elems
  | i@(.evalMap id keys vals) => maybeBuildMapLiteral i id keys vals
  | i@(.evalBinary id overload lhs rhs) =>
    if overload = inListOverload then maybeOptimizeSetMembership i id lhs rhs
    else .ok i
  | i => .ok i

/-! ## The scratch-activation pool

`varActivation` and `varActivationPool` live outside the provided source;
they are modelled from the spec so the fold's pool discipline (checkout,
slot assignment, return) can be examined. -/

/-- Modelled from the spec: the mutable slots of a pooled
`varActivation` — the bound name and its value (`none` when the slot was
never assigned).  The parent pointer is reassigned on every checkout and
carries no state of its own. -/
structure VarSlot where
  name : String
  val : Option RefVal

/-- Modelled from the spec: the pool of scratch activations, as the stack
of objects currently checked in. -/
abbrev Pool := List VarSlot

/-- Modelled from the spec: `varActivationPool.Get` — reuse a previously
returned scratch activation (with whatever slot contents it was returned
with), or allocate a zero-valued one when the pool is empty. -/
def poolGet : Pool → VarSlot × Pool
  | [] => (⟨"", none⟩, [])
  | s :: rest => (s, rest)

/-- Modelled from the spec: `varActivationPool.Put`. -/
def poolPut (p : Pool) (s : VarSlot) : Pool := s :: p

/-- The scope a checked-out `varActivation` presents over its parent: its
one name bound to the slot value (an unassigned slot resolves to an Error
sentinel; the fold assigns every slot before using it in a scope, so the
sentinel is unreachable there). -/
def VarSlot.asAct (s : VarSlot) (parent : Act) : Act :=
  Act.varAct parent s.name (s.val.getD (.errV "uninitialized activation slot"))

/-- The loop of `evalExhaustiveFold.Eval` acting on the two checked-out
slots: `iterCtx.val` is overwritten with the next range element, the
condition is evaluated and discarded, and `accuCtx.val` is overwritten
with the step value. -/
def pooledFoldLoop (cond step : Interp) (ctx : Act) :
    List RefVal → VarSlot → VarSlot → Trace → VarSlot × VarSlot × Trace
  | [], aS, iS, t => (aS, iS, t)
  | v :: rest, aS, iS, t =>
    let iS2 : VarSlot := { iS with val := some v }
    let scope := VarSlot.asAct iS2 (VarSlot.asAct aS ctx)
    let cres := Eval cond scope
    let sres := Eval step scope
    pooledFoldLoop cond step ctx rest { aS with val := some sres.1 } iS2 (t ++ cres.2 ++ sres.2)

/-- Go `evalExhaustiveFold.Eval` (decorators.go) with its interaction with
`varActivationPool` made explicit: the returned triple is the result
value, the observation trace, and the pool after the call.  Checkout
order, slot assignments and the two `Put` calls follow the source; the
range, accumulator, condition, step and result sub-evaluations reuse
`Eval`. -/
def evalExhaustiveFoldPooled (accuVar iterVar : String)
    (iterRange accu cond step result : Interp) (ctx : Act) (pool : Pool) :
    RefVal × Trace × Pool :=
  let r := Eval iterRange ctx
  match r.1.iterElems with
  | none =>
    (RefVal.valOrErr r.1 ("got " ++ r.1.typeName ++ ", expected iterable type"), r.2, pool)
  | some elems =>
    let g1 := poolGet pool
    let a0 := Eval accu ctx
    let accuSlot : VarSlot := { name := accuVar, val := some a0.1 }
    let g2 := poolGet g1.2
    let iterSlot : VarSlot := { g2.1 with name := iterVar }
    let lp := pooledFoldLoop cond step ctx elems accuSlot iterSlot []
    let res := Eval result (VarSlot.asAct lp.1 ctx)
    (res.1, r.2 ++ a0.2 ++ lp.2.2 ++ res.2, poolPut (poolPut g2.2 lp.2.1) lp.1)

/-! ## Specification-side definitions

These two definitions follow the spec's wording of the exhaustive
logical-operator result (the "documented dominance order") and are
compared against the embedded code. -/

/-- The documented dominance order for Exhaustive Or: True if either
operand evaluated to boolean True; else False if both are boolean; else
the Unknown operand (left-preferred when both are Unknown); else an Error
keyed off the left value. -/
def orDominance (l r : RefVal) : RefVal :=
  if l.asBool = some true ∨ r.asBool = some true then .boolV true
  else if l.isBool = true ∧ r.isBool = true then .boolV false
  else if l.isUnknown then l
  else if r.isUnknown then r
  else RefVal.valOrErr l "no such overload"

/-- The documented dominance order for Exhaustive And, symmetric to Or:
False dominates, then True∧True→True, then Unknown (left-preferred), then
an Error keyed off the left value. -/
def andDominance (l r : RefVal) : RefVal :=
  if l.asBool = some false ∨ r.asBool = some false then .boolV false
  else if l.isBool = true ∧ r.isBool = true then .boolV true
  else if l.isUnknown then l
  else if r.isUnknown then r
  else RefVal.valOrErr l "no such overload"

/-- The exhaustive-fold evaluation contract in the amended wording:
evaluate the range; if its value is not iterable, return
`ValOrErr(range value)` without iterating — the range value itself when
it is an Error or Unknown (sentinels propagate unchanged), otherwise an
"expected iterable type" Error; otherwise fold over the *entire* element
list — binding the iteration variable, evaluating the condition only for
its observations (its value is never consulted), and storing the step
value into the accumulator binding — and finally evaluate the result
expression against the final accumulator scope. -/
def exhaustiveFoldRef (accuVar iterVar : String)
    (iterRange accu cond step result : Interp) (ctx : Act) : RefVal × Trace :=
  let r := Eval iterRange ctx
  match r.1.iterElems with
  | none =>
    (RefVal.valOrErr r.1 ("got " ++ r.1.typeName ++ ", expected iterable type"), r.2)
  | some elems =>
    let a0 := Eval accu ctx
    let lp := elems.foldl
      (fun acc v =>
        let scope := Act.varAct (Act.varAct ctx accuVar acc.1) iterVar v
        let cres := Eval cond scope
        let sres := Eval step scope
        (sres.1, acc.2 ++ cres.2 ++ sres.2))
      (a0.1, ([] : Trace))
    let res := Eval result (Act.varAct ctx accuVar lp.1)
    (res.1, r.2 ++ a0.2 ++ lp.2 ++ res.2)

/-! ## Equality of runtime values is lawful -/

/-- Runtime-value equality agrees with propositional equality. -/
theorem RefVal.beq_iff : ∀ (a b : RefVal), RefVal.beq a b = true ↔ a = b := by
  apply RefVal.beq.induct
    (fun a b => RefVal.beq a b = true ↔ a = b)
    (fun xs ys => RefVal.beqEntries xs ys = true ↔ xs = ys)
    (fun xs ys => RefVal.beqList xs ys = true ↔ xs = ys)
  case _ => intro a b; simp [RefVal.beq]
  case _ => intro a b; simp [RefVal.beq]
  case _ => intro a b; simp [RefVal.beq]
  case _ => intro a b; simp [RefVal.beq]
  case _ => intro a b ih; simp [RefVal.beq, ih]
  case _ => intro a b ih; simp [RefVal.beq, ih]
  case _ => intro a b; simp [RefVal.beq]
  case _ => intro a b; simp [RefVal.beq]
  case _ =>
    intro t x h1 h2 h3 h4 h5 h6 h7 h8
    cases t <;> cases x <;>
      first
        | exact (h1 _ _ rfl rfl).elim
        | exact (h2 _ _ rfl rfl).elim
        | exact (h3 _ _ rfl rfl).elim
        | exact (h4 _ _ rfl rfl).elim
        | exact (h5 _ _ rfl rfl).elim
        | exact (h6 _ _ rfl rfl).elim
        | exact (h7 _ _ rfl rfl).elim
        | exact (h8 _ _ rfl rfl).elim
        | simp [RefVal.beq]
  case _ => simp [RefVal.beqList]
  case _ => intro x xs y ys ih1 ih2; simp [RefVal.beqList, ih1, ih2]
  case _ =>
    intro t x h1 h2
    cases t <;> cases x <;>
      first
        | exact (h1 rfl rfl).elim
        | exact (h2 _ _ _ _ rfl rfl).elim
        | simp [RefVal.beqList]
  case _ => simp [RefVal.beqEntries]
  case _ => intro x xs y ys ih1 ih2 ih3; simp [RefVal.beqEntries, ih1, ih2, ih3, Prod.ext_iff]
  case _ =>
    intro t x h1 h2
    cases t <;> cases x <;>
      first
        | exact (h1 rfl rfl).elim
        | exact (h2 _ _ _ _ rfl rfl).elim
        | simp [RefVal.beqEntries]

instance : DecidableEq RefVal := fun a b => decidable_of_iff _ (RefVal.beq_iff a b)

/-! ## Claims about the exhaustive logical operators, watch and conditional -/

/-- The source chain of checks in `evalExhaustiveOr.Eval` computes the
documented Or dominance order. -/
theorem orDominance_eq (l r : RefVal) :
    (if l.asBool = some true then RefVal.boolV true
     else if r.asBool = some true then RefVal.boolV true
     else if l.isBool && r.isBool then RefVal.boolV false
     else if l.isUnknown then l
     else if r.isUnknown then r
     else RefVal.valOrErr l "no such overload") = orDominance l r := by
  unfold orDominance
  split_ifs <;> simp_all

/-- The source chain of checks in `evalExhaustiveAnd.Eval` computes the
documented And dominance order. -/
theorem andDominance_eq (l r : RefVal) :
    (if l.asBool = some false then RefVal.boolV false
     else if r.asBool = some false then RefVal.boolV false
     else if l.isBool && r.isBool then RefVal.boolV true
     else if l.isUnknown then l
     else if r.isUnknown then r
     else RefVal.valOrErr l "no such overload") = andDominance l r := by
  unfold andDominance
  split_ifs <;> simp_all

/-- Claim C1: for every activation and every pair of operand nodes,
`evalExhaustiveOr.Eval` and `evalExhaustiveAnd.Eval` evaluate both `lhs`
and `rhs` unconditionally (the observation trace is the concatenation of
both operand traces) and return according to the documented dominance
order: for Or, True if either operand is boolean True, else False when
both are boolean, else the Unknown operand (left-preferred), else an
Error keyed off the left value; for And symmetrically with False
dominating. -/
theorem exhaustiveOrAnd_dominance (id : Int) (lhs rhs : Interp) (ctx : Act) :
    Eval (.evalExhaustiveOr id lhs rhs) ctx
      = (orDominance (Eval lhs ctx).1 (Eval rhs ctx).1, (Eval lhs ctx).2 ++ (Eval rhs ctx).2)
    ∧ Eval (.evalExhaustiveAnd id lhs rhs) ctx
      = (andDominance (Eval lhs ctx).1 (Eval rhs ctx).1, (Eval lhs ctx).2 ++ (Eval rhs ctx).2) := by
  constructor
  · simp only [Eval]
    rw [orDominance_eq]
  · simp only [Eval]
    rw [andDominance_eq]

/-- Claim C9: for every activation, `evalWatch.Eval` evaluates the
wrapped node, invokes the observer exactly once with the pair (wrapped
node id, computed value) — one trace entry appended after the wrapped
evaluation — and returns the computed value unchanged, for every result
kind including Error and Unknown. -/
theorem evalWatch_observe_once (i : Interp) (ctx : Act) :
    Eval (.evalWatch i) ctx = ((Eval i ctx).1, (Eval i ctx).2 ++ [(i.ID, (Eval i ctx).1)]) := by
  simp [Eval]

/-- Claim C5 (counterexample): an Unknown condition value is not a
boolean, yet `evalExhaustiveConditional.Eval` returns the Unknown operand
itself rather than an Error, so "if the condition value is not a boolean
it returns an Error" fails at this input. -/
theorem exhaustiveConditional_unknown_counterexample :
    ((Eval (.evalConst 2 (.unknownV [7])) Act.empty).1.isBool = false)
    ∧ (Eval (.evalExhaustiveConditional 1 (.evalConst 2 (.unknownV [7]))
        (.evalConst 3 (.boolV true)) (.evalConst 4 (.boolV false))) Act.empty).1
        = .unknownV [7]
    ∧ ((Eval (.evalExhaustiveConditional 1 (.evalConst 2 (.unknownV [7]))
        (.evalConst 3 (.boolV true)) (.evalConst 4 (.boolV false))) Act.empty).1).isError
        = false := by
  refine ⟨?_, ?_, ?_⟩ <;>
    simp [Eval, RefVal.asBool, RefVal.isBool, RefVal.isError, RefVal.valOrErr,
      RefVal.isUnknownOrError]

/-- Claim C5 (amended): for every activation,
`evalExhaustiveConditional.Eval` evaluates the condition, the truthy
branch and the falsy branch unconditionally; a boolean condition selects
the already-computed truthy or falsy value; a non-boolean condition
yields `ValOrErr(condition)` — a "no such overload" Error unless the
condition value is itself an Error or Unknown, which is returned
as-is. -/
theorem exhaustiveConditional_characterization (id : Int) (e t f : Interp) (ctx : Act) :
    (Eval (.evalExhaustiveConditional id e t f) ctx).2
        = (Eval e ctx).2 ++ (Eval t ctx).2 ++ (Eval f ctx).2
    ∧ ((Eval e ctx).1 = .boolV true →
        (Eval (.evalExhaustiveConditional id e t f) ctx).1 = (Eval t ctx).1)
    ∧ ((Eval e ctx).1 = .boolV false →
        (Eval (.evalExhaustiveConditional id e t f) ctx).1 = (Eval f ctx).1)
    ∧ ((Eval e ctx).1.isBool = false →
        (Eval (.evalExhaustiveConditional id e t f) ctx).1
          = RefVal.valOrErr (Eval e ctx).1 "no such overload") := by
  refine ⟨?_, ?_, ?_, ?_⟩
  · simp only [Eval]
  · intro h; simp [Eval, h, RefVal.asBool]
  · intro h; simp [Eval, h, RefVal.asBool]
  · intro h
    simp only [Eval]
    rcases hb : (Eval e ctx).1.asBool with _ | b
    · simp
    · exfalso; cases he : (Eval e ctx).1 <;> simp_all [RefVal.asBool, RefVal.isBool]

/-- Claim C5 (witness): the amended characterization applied at a True
condition over constants. -/
theorem exhaustiveConditional_characterization_witness :
    (Eval (.evalExhaustiveConditional 1 (.evalConst 2 (.boolV true))
        (.evalConst 3 (.intV 10)) (.evalConst 4 (.intV 20))) Act.empty).1 = .intV 10 := by
  refine ((exhaustiveConditional_characterization 1 (.evalConst 2 (.boolV true))
      (.evalConst 3 (.intV 10)) (.evalConst 4 (.intV 20)) Act.empty).2.1 ?_).trans ?_
  · simp [Eval]
  · simp [Eval]

/-! ## Claims about the set-membership node -/

/-- A successful map lookup returns the value of some stored entry. -/
theorem mapLookup_mem_of_eq_some {m : List (RefVal × RefVal)} {k v : RefVal}
    (h : mapLookup m k = some v) : ∃ p ∈ m, p.2 = v := by
  induction m with
  | nil => simp [mapLookup] at h
  | cons p rest ih =>
    by_cases hb : p.1 = k
    · simp [mapLookup, RefVal.beq_iff, hb] at h
      exact ⟨p, by simp, h⟩
    · simp [mapLookup, RefVal.beq_iff, hb] at h
      obtain ⟨q, hq, hv⟩ := ih h
      exact ⟨q, by simp [hq], hv⟩

/-- Claim C3 (amended): for every activation, `evalSetMembership.Eval`
evaluates `arg` (and only `arg` — the trace is the arg trace); when the
value set maps every key to True (as the optimizer builds it) and the
runtime type name matches `argTypeName`, the result is True exactly when
the value is a key of the value set and False otherwise; on a type-name
mismatch the result is `ValOrErr(value)` — a "no such overload" Error
unless the value is itself an Error or Unknown, which is returned
as-is. -/
theorem evalSetMembership_characterization (inst arg : Interp) (tn : String)
    (vs : List (RefVal × RefVal)) (ctx : Act)
    (hvals : ∀ p ∈ vs, p.2 = RefVal.boolV true) :
    (Eval (.evalSetMembership inst arg tn vs) ctx).2 = (Eval arg ctx).2
    ∧ ((Eval arg ctx).1.typeName = tn →
        (((Eval (.evalSetMembership inst arg tn vs) ctx).1 = .boolV true)
            ↔ (mapLookup vs (Eval arg ctx).1).isSome = true))
    ∧ ((Eval arg ctx).1.typeName = tn → mapLookup vs (Eval arg ctx).1 = none →
        (Eval (.evalSetMembership inst arg tn vs) ctx).1 = .boolV false)
    ∧ ((Eval arg ctx).1.typeName ≠ tn →
        (Eval (.evalSetMembership inst arg tn vs) ctx).1
          = RefVal.valOrErr (Eval arg ctx).1 "no such overload") := by
  refine ⟨?_, ?_, ?_, ?_⟩
  · simp [Eval]
  · intro h
    rcases hl : mapLookup vs (Eval arg ctx).1 with _ | r
    · simp [Eval, h, hl]
    · obtain ⟨p, hp, hv⟩ := mapLookup_mem_of_eq_some hl
      have : r = RefVal.boolV true := hv ▸ hvals p hp
      simp [Eval, h, hl, this]
  · intro h hl
    simp [Eval, h, hl]
  · intro h
    simp [Eval, h]

/-- Claim C3 (counterexample): on an optimizer-shaped set-membership node
remembering type name "int", an argument that evaluates to an Unknown has
a mismatching type name, yet the node returns the Unknown itself, not a
"no such overload" Error. -/
theorem evalSetMembership_mismatch_counterexample :
    ((Eval (Interp.evalSetMembership
        (.evalBinary 1 inListOverload (.evalIdent 2 "x") (.evalConst 3 (.listV [.intV 1, .intV 2])))
        (.evalIdent 2 "x") "int" [(.intV 1, .boolV true), (.intV 2, .boolV true)])
        (Act.varAct Act.empty "x" (.unknownV [2]))).1 = .unknownV [2])
    ∧ (RefVal.unknownV [2]).typeName ≠ "int"
    ∧ ((Eval (Interp.evalSetMembership
        (.evalBinary 1 inListOverload (.evalIdent 2 "x") (.evalConst 3 (.listV [.intV 1, .intV 2])))
        (.evalIdent 2 "x") "int" [(.intV 1, .boolV true), (.intV 2, .boolV true)])
        (Act.varAct Act.empty "x" (.unknownV [2]))).1).isError = false := by
  refine ⟨?_, by simp [RefVal.typeName], ?_⟩ <;>
    simp [Eval, Act.resolveName, RefVal.typeName, RefVal.valOrErr, RefVal.isUnknownOrError,
      RefVal.isError]

/-- Claim C3 (witness): the amended characterization applied at a
matching int argument that is a key of the set. -/
theorem evalSetMembership_characterization_witness :
    (Eval (Interp.evalSetMembership (.evalConst 1 (.boolV true)) (.evalConst 2 (.intV 2)) "int"
        [(.intV 1, .boolV true), (.intV 2, .boolV true)]) Act.empty).1 = .boolV true := by
  have h := evalSetMembership_characterization (.evalConst 1 (.boolV true)) (.evalConst 2 (.intV 2))
    "int" [(.intV 1, .boolV true), (.intV 2, .boolV true)] Act.empty (by decide)
  exact (h.2.1 (by simp [Eval, RefVal.typeName])).mpr (by simp [Eval, mapLookup, RefVal.beq])

/-! ## Claim about the exhaustive fold -/

/-- The source loop of `evalExhaustiveFold.Eval` is a left fold over the
whole element list. -/
theorem foldLoop_eq_foldl (condF stepF : Act → RefVal × Trace) (ctx : Act)
    (accuVar iterVar : String) :
    ∀ (elems : List RefVal) (a : RefVal) (t : Trace),
      foldLoop condF stepF ctx accuVar iterVar elems a t
        = elems.foldl
            (fun acc v =>
              let scope := Act.varAct (Act.varAct ctx accuVar acc.1) iterVar v
              let cres := condF scope
              let sres := stepF scope
              (sres.1, acc.2 ++ cres.2 ++ sres.2))
            (a, t) := by
  intro elems
  induction elems with
  | nil => intro a t; simp [foldLoop]
  | cons v rest ih => intro a t; simp [foldLoop, ih]

/-- Claim C6 (counterexample): an Unknown iteration range is not
iterable, yet `evalExhaustiveFold.Eval` returns the Unknown itself —
neither an error produced by the range evaluation (it produced none) nor
an "expected iterable type" Error — so "if the range value is not
iterable it returns the error the range evaluation produces (or an
expected-iterable-type error)" fails at this input. -/
theorem exhaustiveFold_unknown_range_counterexample :
    (RefVal.unknownV [3]).iterElems = none
    ∧ (Eval (.evalExhaustiveFold 1 "a" "i" (.evalConst 2 (.unknownV [3]))
        (.evalConst 3 (.intV 0)) (.evalConst 4 (.boolV true)) (.evalConst 5 (.intV 1))
        (.evalIdent 6 "a")) Act.empty).1 = .unknownV [3]
    ∧ ((Eval (.evalExhaustiveFold 1 "a" "i" (.evalConst 2 (.unknownV [3]))
        (.evalConst 3 (.intV 0)) (.evalConst 4 (.boolV true)) (.evalConst 5 (.intV 1))
        (.evalIdent 6 "a")) Act.empty).1).isError = false := by
  refine ⟨rfl, ?_, ?_⟩ <;>
    simp [Eval, RefVal.iterElems, RefVal.valOrErr, RefVal.isUnknownOrError, RefVal.isError]

/-- Claim C6 (amended): for every activation, `evalExhaustiveFold.Eval`
coincides with the amended reference: when the range is iterable it folds
over the entire range with no early termination, evaluating the loop
condition at each step but discarding its result, storing each step value
into the accumulator binding, and returning the result expression
evaluated against the final accumulator scope; when the range value is
not iterable it returns `ValOrErr(range value)` without iterating — the
range value itself when it is an Error or Unknown, otherwise an "expected
iterable type" Error. -/
theorem exhaustiveFold_matches_ref (id : Int) (accuVar iterVar : String)
    (iterRange accu cond step result : Interp) (ctx : Act) :
    Eval (.evalExhaustiveFold id accuVar iterVar iterRange accu cond step result) ctx
      = exhaustiveFoldRef accuVar iterVar iterRange accu cond step result ctx := by
  simp only [Eval, exhaustiveFoldRef]
  rcases h : (Eval iterRange ctx).1.iterElems with _ | elems
  · simp
  · simp [foldLoop_eq_foldl]

/-! ## Claims about the optimizer decorator -/

/-- Evaluating a list of const elements neither observes anything nor
depends on the activation. -/
theorem evalElems_allConst (elems : List Interp) :
    elems.all isConstNode = true →
    ∀ ctx, evalElems elems ctx = ((evalElems elems Act.empty).1, []) := by
  induction elems with
  | nil => intro _ ctx; simp [evalElems]
  | cons e rest ih =>
    intro h ctx
    simp only [List.all_cons, Bool.and_eq_true] at h
    obtain ⟨he, hrest⟩ := h
    cases e <;> simp [isConstNode] at he
    rename_i cid cv
    simp only [evalElems, Eval]
    by_cases hv : cv.isUnknownOrError = true
    · simp [hv]
    · simp only [Bool.not_eq_true] at hv
      simp only [hv]
      rw [ih hrest ctx, ih hrest Act.empty]
      rcases (evalElems rest Act.empty).1 with vs | s <;> simp

/-- Evaluating const keys and values neither observes anything nor
depends on the activation. -/
theorem evalEntries_allConst (keys vals : List Interp) :
    allConstEntries keys vals = true →
    ∀ ctx, evalEntries keys vals ctx = ((evalEntries keys vals Act.empty).1, []) := by
  induction keys generalizing vals with
  | nil => intro _ ctx; simp [evalEntries]
  | cons k ks ih =>
    intro h ctx
    rcases vals with _ | ⟨v, vs⟩
    · simp [allConstEntries] at h
    · simp only [allConstEntries, Bool.and_eq_true] at h
      obtain ⟨⟨hk, hv⟩, hrest⟩ := h
      cases k <;> simp [isConstNode] at hk
      cases v <;> simp [isConstNode] at hv
      rename_i kid kv vid vv
      simp only [evalEntries, Eval]
      by_cases hku : kv.isUnknownOrError = true
      · simp [hku]
      · simp only [Bool.not_eq_true] at hku
        simp only [hku]
        by_cases hvu : vv.isUnknownOrError = true
        · simp [hvu]
        · simp only [Bool.not_eq_true] at hvu
          simp only [hvu]
          rw [ih vs hrest ctx, ih vs hrest Act.empty]
          rcases (evalEntries ks vs Act.empty).1 with es | s <;> simp

/-- Claim C4: the optimizer replaces a List node whose elements are all
Const by a single Const holding the list evaluated once against the empty
activation, and that Const evaluates to the same value as the original
list under every activation; the same holds for a Map node when every key
and every value is Const; otherwise the List or Map node is returned
unchanged. -/
theorem decOptimize_literal_folding (id : Int) (elems keys vals : List Interp) :
    (elems.all isConstNode = true →
        decOptimize (.evalList id elems)
          = .ok (.evalConst id (Eval (.evalList id elems) Act.empty).1)
        ∧ ∀ ctx, Eval (.evalConst id (Eval (.evalList id elems) Act.empty).1) ctx
            = Eval (.evalList id elems) ctx)
    ∧ (elems.all isConstNode = false →
        decOptimize (.evalList id elems) = .ok (.evalList id elems))
    ∧ (allConstEntries keys vals = true →
        decOptimize (.evalMap id keys vals)
          = .ok (.evalConst id (Eval (.evalMap id keys vals) Act.empty).1)
        ∧ ∀ ctx, Eval (.evalConst id (Eval (.evalMap id keys vals) Act.empty).1) ctx
            = Eval (.evalMap id keys vals) ctx)
    ∧ (allConstEntries keys vals = false →
        decOptimize (.evalMap id keys vals) = .ok (.evalMap id keys vals)) := by
  refine ⟨?_, ?_, ?_, ?_⟩
  · intro h
    constructor
    · simp [decOptimize, maybeBuildListLiteral, h]
    · intro ctx
      have hc := evalElems_allConst elems h ctx
      rcases he : evalElems elems Act.empty with ⟨vs | s, t⟩ <;>
        simp [Eval, hc, he]
  · intro h
    simp [decOptimize, maybeBuildListLiteral, h]
  · intro h
    constructor
    · simp [decOptimize, maybeBuildMapLiteral, h]
    · intro ctx
      have hc := evalEntries_allConst keys vals h ctx
      rcases he : evalEntries keys vals Act.empty with ⟨es | s, t⟩ <;>
        simp [Eval, hc, he]
  · intro h
    simp [decOptimize, maybeBuildMapLiteral, h]

/-- Claim C4 (witness): folding a two-element constant int list, checked
under a nonempty activation. -/
theorem decOptimize_literal_folding_witness :
    decOptimize (.evalList 1 [.evalConst 2 (.intV 1), .evalConst 3 (.intV 2)])
      = .ok (.evalConst 1 (.listV [.intV 1, .intV 2]))
    ∧ Eval (.evalConst 1 (.listV [.intV 1, .intV 2])) (Act.varAct Act.empty "x" (.intV 9))
      = Eval (.evalList 1 [.evalConst 2 (.intV 1), .evalConst 3 (.intV 2)])
          (Act.varAct Act.empty "x" (.intV 9)) := by
  have h := (decOptimize_literal_folding 1 [.evalConst 2 (.intV 1), .evalConst 3 (.intV 2)] [] []).1
    (by decide)
  have hval : (Eval (.evalList 1 [.evalConst 2 (.intV 1), .evalConst 3 (.intV 2)]) Act.empty).1
      = .listV [.intV 1, .intV 2] := by
    simp [Eval, evalElems, RefVal.isUnknownOrError]
  exact ⟨hval ▸ h.1, hval ▸ h.2 (Act.varAct Act.empty "x" (.intV 9))⟩

/-- Looking up the key just inserted finds the inserted value. -/
theorem mapLookup_mapInsert_self (m : List (RefVal × RefVal)) (k v : RefVal) :
    mapLookup (mapInsert m k v) k = some v := by
  induction m with
  | nil => simp [mapInsert, mapLookup, RefVal.beq_iff]
  | cons p rest ih =>
    by_cases h : p.1 = k
    · simp [mapInsert, mapLookup, RefVal.beq_iff, h]
    · simp [mapInsert, mapLookup, RefVal.beq_iff, h, ih]

/-- Insertion does not disturb the lookup of a different key. -/
theorem mapLookup_mapInsert_other (m : List (RefVal × RefVal)) (k v j : RefVal) (hj : j ≠ k) :
    mapLookup (mapInsert m k v) j = mapLookup m j := by
  induction m with
  | nil => simp [mapInsert, mapLookup, RefVal.beq_iff, Ne.symm hj]
  | cons p rest ih =>
    by_cases h : p.1 = k
    · simp [mapInsert, mapLookup, RefVal.beq_iff, h, Ne.symm hj]
    · simp [mapInsert, mapLookup, RefVal.beq_iff, h, ih]

/-- After inserting True for every element, every inserted element (and
every key that already mapped to True) looks up to True. -/
theorem mapLookup_foldl_insertTrue (elems : List RefVal) :
    ∀ (acc : List (RefVal × RefVal)) (e : RefVal),
      (e ∈ elems ∨ mapLookup acc e = some (.boolV true)) →
      mapLookup (elems.foldl (fun m x => mapInsert m x (.boolV true)) acc) e
        = some (.boolV true) := by
  induction elems with
  | nil =>
    intro acc e he
    rcases he with he | he
    · simp at he
    · simpa using he
  | cons x rest ih =>
    intro acc e he
    simp only [List.foldl_cons]
    apply ih
    by_cases hx : e = x
    · right
      rw [hx, mapLookup_mapInsert_self]
    · rcases he with he | he
      · rcases List.mem_cons.mp he with h | h
        · exact absurd h hx
        · exact Or.inl h
      · right
        rw [mapLookup_mapInsert_other _ _ _ _ hx, he]

/-- After the first element fixed the type name, the build loop of
`maybeOptimizeSetMembership` succeeds exactly when every remaining
element is primitive with that type name, accumulating True markers. -/
theorem buildValueSet_go (t : String) (elems : List RefVal) :
    ∀ (acc : List (RefVal × RefVal)),
      buildValueSet elems (some t) acc
        = if elems.all (fun e => e.isPrimitiveType && (e.typeName == t)) then
            some (t, elems.foldl (fun m e => mapInsert m e (.boolV true)) acc)
          else none := by
  induction elems with
  | nil => intro acc; simp [buildValueSet]
  | cons e rest ih =>
    intro acc
    simp only [buildValueSet, List.all_cons, Bool.and_eq_true, List.foldl_cons]
    by_cases hp : e.isPrimitiveType = true
    · by_cases ht : e.typeName = t
      · simp [hp, ht, ih]
      · simp [hp, ht]
    · simp [hp]

/-- Claim C2: for a Binary node tagged with the list-membership overload
whose right-hand operand is a Const list: an empty list is replaced by
Const(False); a nonempty list of primitive elements sharing one type name
is replaced by a SetMembership node whose arg is the left operand, whose
remembered type name is the shared name, and whose value set maps each
element to True; a list with a non-primitive element or heterogeneous
type names leaves the node unchanged. -/
theorem decOptimize_setMembership_rewrite (id cid : Int) (lhs : Interp) (v : RefVal)
    (elems : List RefVal) (hv : v.asLister = some elems) :
    (elems = [] →
        decOptimize (.evalBinary id inListOverload lhs (.evalConst cid v))
          = .ok (.evalConst id (.boolV false)))
    ∧ (∀ t, elems ≠ [] → (∀ e ∈ elems, e.isPrimitiveType = true) →
        (∀ e ∈ elems, e.typeName = t) →
        decOptimize (.evalBinary id inListOverload lhs (.evalConst cid v))
          = .ok (.evalSetMembership (.evalBinary id inListOverload lhs (.evalConst cid v)) lhs t
              (elems.foldl (fun m e => mapInsert m e (.boolV true)) []))
        ∧ ∀ e ∈ elems,
            mapLookup (elems.foldl (fun m e => mapInsert m e (.boolV true)) []) e
              = some (.boolV true))
    ∧ ((¬ (∀ e ∈ elems, e.isPrimitiveType = true)
          ∨ ∃ e1 ∈ elems, ∃ e2 ∈ elems, e1.typeName ≠ e2.typeName) →
        decOptimize (.evalBinary id inListOverload lhs (.evalConst cid v))
          = .ok (.evalBinary id inListOverload lhs (.evalConst cid v))) := by
  refine ⟨?_, ?_, ?_⟩
  · intro h
    subst h
    simp [decOptimize, maybeOptimizeSetMembership, hv]
  · intro t hne hprim hname
    rcases elems with _ | ⟨e, rest⟩
    · exact absurd rfl hne
    constructor
    · have hallrest : rest.all (fun x => x.isPrimitiveType && (x.typeName == t)) = true := by
        rw [List.all_eq_true]
        intro x hx
        have h1 := hprim x (List.mem_cons_of_mem _ hx)
        have h2 := hname x (List.mem_cons_of_mem _ hx)
        simp [h1, h2]
      have hbuild : buildValueSet (e :: rest) none []
          = some (t, (e :: rest).foldl (fun m x => mapInsert m x (.boolV true)) []) := by
        have he1 := hprim e (List.mem_cons_self e rest)
        have he2 := hname e (List.mem_cons_self e rest)
        simp [buildValueSet, he1, he2]
        rw [buildValueSet_go, if_pos hallrest]
      simp [decOptimize, maybeOptimizeSetMembership, hv, hbuild]
    · intro x hx
      exact mapLookup_foldl_insertTrue _ _ _ (Or.inl hx)
  · intro h
    have hne : elems ≠ [] := by
      rcases h with h | ⟨e1, he1, _⟩
      · intro hemp; subst hemp; simp at h
      · intro hemp; subst hemp; simp at he1
    rcases elems with _ | ⟨e, rest⟩
    · exact absurd rfl hne
    have hnone : buildValueSet (e :: rest) none [] = none := by
      by_cases hp : e.isPrimitiveType = true
      · have hfail : rest.all (fun x => x.isPrimitiveType && (x.typeName == e.typeName))
            = false := by
          rcases h with h | ⟨e1, he1, e2, he2, hne12⟩
          · push_neg at h
            obtain ⟨x, hx, hxp⟩ := h
            have hxrest : x ∈ rest := by
              rcases List.mem_cons.mp hx with h1 | h1
              · exact absurd (h1 ▸ hp) hxp
              · exact h1
            rw [List.all_eq_false]
            exact ⟨x, hxrest, by simp [Bool.not_eq_true] at hxp ⊢; simp [hxp]⟩
          · have hwit : ∃ x ∈ rest, x.typeName ≠ e.typeName := by
              by_cases h1 : e1.typeName = e.typeName
              · have h2 : e2.typeName ≠ e.typeName := fun hc => hne12 (h1.trans hc.symm)
                have h2r : e2 ∈ rest := by
                  rcases List.mem_cons.mp he2 with hh | hh
                  · exact absurd (hh ▸ rfl) (hh ▸ h2)
                  · exact hh
                exact ⟨e2, h2r, h2⟩
              · have h1r : e1 ∈ rest := by
                  rcases List.mem_cons.mp he1 with hh | hh
                  · exact absurd (hh ▸ rfl) (hh ▸ h1)
                  · exact hh
                exact ⟨e1, h1r, h1⟩
            obtain ⟨x, hxr, hxn⟩ := hwit
            rw [List.all_eq_false]
            exact ⟨x, hxr, by simp [hxn]⟩
        simp [buildValueSet, hp]
        rw [buildValueSet_go, if_neg (by simp [hfail])]
      · simp only [Bool.not_eq_true] at hp
        simp [buildValueSet, hp]
    simp [decOptimize, maybeOptimizeSetMembership, hv, hnone]

/-- Claim C2 (witness): the rewrite applied to a membership test against
the constant list of ints [1, 2]. -/
theorem decOptimize_setMembership_rewrite_witness :
    decOptimize (.evalBinary 1 inListOverload (.evalIdent 2 "x")
        (.evalConst 3 (.listV [.intV 1, .intV 2])))
      = .ok (.evalSetMembership
          (.evalBinary 1 inListOverload (.evalIdent 2 "x")
            (.evalConst 3 (.listV [.intV 1, .intV 2])))
          (.evalIdent 2 "x") "int" [(.intV 1, .boolV true), (.intV 2, .boolV true)])
    ∧ mapLookup [(.intV 1, .boolV true), (.intV 2, .boolV true)] (.intV 2)
        = some (.boolV true) := by
  have h := (decOptimize_setMembership_rewrite 1 3 (.evalIdent 2 "x")
      (.listV [.intV 1, .intV 2]) [.intV 1, .intV 2] rfl).2.1 "int"
    (by simp) (by decide) (by decide)
  refine ⟨?_, h.2 _ (by simp)⟩
  have hfold : ([RefVal.intV 1, RefVal.intV 2].foldl (fun m e => mapInsert m e (.boolV true)) [])
      = [(RefVal.intV 1, RefVal.boolV true), (RefVal.intV 2, RefVal.boolV true)] := by decide
  rw [← hfold]
  exact h.1

/-! ## Claims about decorator plumbing (ids and errors) -/

/-- Claim C7: every node produced by any of the three decorators reports
the same `ID()` as the node it replaces, and the wrapper kinds
`evalSetMembership` and `evalWatch` delegate `ID()` to the wrapped node
rather than storing their own id. -/
theorem decorators_preserve_id (i : Interp) :
    (∀ o, decObserveEval i = .ok o → o.ID = i.ID)
    ∧ (∀ o, decDisableShortcircuits i = .ok o → o.ID = i.ID)
    ∧ (∀ o, decOptimize i = .ok o → o.ID = i.ID)
    ∧ (∀ arg tn vs, (Interp.evalSetMembership i arg tn vs).ID = i.ID)
    ∧ (Interp.evalWatch i).ID = i.ID := by
  refine ⟨?_, ?_, ?_, fun arg tn vs => rfl, rfl⟩
  · intro o h
    simp only [decObserveEval, Except.ok.injEq] at h
    simp [← h, Interp.ID]
  · intro o h
    cases i <;> simp only [decDisableShortcircuits, Except.ok.injEq] at h <;>
      simp [← h, Interp.ID]
  · intro o h
    cases i
    case evalList id elems =>
      simp only [decOptimize, maybeBuildListLiteral] at h
      split at h <;> (injection h with h2; subst h2; simp [Interp.ID])
    case evalMap id keys vals =>
      simp only [decOptimize, maybeBuildMapLiteral] at h
      split at h <;> (injection h with h2; subst h2; simp [Interp.ID])
    case evalBinary id ov lhs rhs =>
      simp only [decOptimize] at h
      split at h
      · cases rhs
        case evalConst cid cv =>
          simp only [maybeOptimizeSetMembership] at h
          split at h
          · injection h with h2; subst h2; simp [Interp.ID]
          · split at h
            · injection h with h2; subst h2; simp [Interp.ID]
            · split at h <;> (injection h with h2; subst h2; simp [Interp.ID])
        all_goals
          (simp only [maybeOptimizeSetMembership] at h; injection h with h2; subst h2;
            simp [Interp.ID])
      · injection h with h2; subst h2; simp [Interp.ID]
    all_goals (simp only [decOptimize] at h; injection h with h2; subst h2; simp [Interp.ID])

/-- Claim C7 (witness): the exhaustive twin of an Or node keeps its
id. -/
theorem decorators_preserve_id_witness :
    (Interp.evalExhaustiveOr 5 (.evalConst 1 (.boolV true)) (.evalConst 2 (.boolV false))).ID
      = (Interp.evalOr 5 (.evalConst 1 (.boolV true)) (.evalConst 2 (.boolV false))).ID := by
  exact (decorators_preserve_id
    (.evalOr 5 (.evalConst 1 (.boolV true)) (.evalConst 2 (.boolV false)))).2.1 _ rfl

/-- List-literal folding never returns an error. -/
theorem maybeBuildListLiteral_isOk (i : Interp) (id : Int) (elems : List Interp) :
    ∃ o, maybeBuildListLiteral i id elems = .ok o := by
  unfold maybeBuildListLiteral
  split <;> exact ⟨_, rfl⟩

/-- Map-literal folding never returns an error. -/
theorem maybeBuildMapLiteral_isOk (i : Interp) (id : Int) (keys vals : List Interp) :
    ∃ o, maybeBuildMapLiteral i id keys vals = .ok o := by
  unfold maybeBuildMapLiteral
  split <;> exact ⟨_, rfl⟩

/-- The set-membership rewrite never returns an error. -/
theorem maybeOptimizeSetMembership_isOk (i : Interp) (id : Int) (lhs rhs : Interp) :
    ∃ o, maybeOptimizeSetMembership i id lhs rhs = .ok o := by
  unfold maybeOptimizeSetMembership
  split
  · split
    · exact ⟨_, rfl⟩
    · split
      · exact ⟨_, rfl⟩
      · split <;> exact ⟨_, rfl⟩
  · exact ⟨_, rfl⟩

/-- Claim C10: each of the three decorators returns a nil error on every
input node — none can abort pipeline construction. -/
theorem decorators_never_reject (i : Interp) :
    (∃ o, decObserveEval i = .ok o) ∧ (∃ o, decDisableShortcircuits i = .ok o)
    ∧ (∃ o, decOptimize i = .ok o) := by
  refine ⟨⟨_, rfl⟩, ?_, ?_⟩
  · cases i <;> exact ⟨_, rfl⟩
  · cases i
    case evalList id elems =>
      simp only [decOptimize]
      exact maybeBuildListLiteral_isOk _ _ _
    case evalMap id keys vals =>
      simp only [decOptimize]
      exact maybeBuildMapLiteral_isOk _ _ _ _
    case evalBinary id ov lhs rhs =>
      simp only [decOptimize]
      split
      · exact maybeOptimizeSetMembership_isOk _ _ _ _
      · exact ⟨_, rfl⟩
    all_goals exact ⟨_, rfl⟩

/-! ## Claim about the scratch-activation pool -/

/-- The pooled fold loop acts on its slots exactly as the pure loop acts
on values: the accumulator slot keeps its name and tracks the fold value,
the iteration slot keeps its name (its final stale value depends on the
range). -/
theorem pooledFoldLoop_spec (cond step : Interp) (ctx : Act) :
    ∀ (elems : List RefVal) (av iv : String) (a : RefVal) (w0 : Option RefVal) (t : Trace),
      ∃ w, pooledFoldLoop cond step ctx elems ⟨av, some a⟩ ⟨iv, w0⟩ t
        = (⟨av, some (foldLoop (fun s => Eval cond s) (fun s => Eval step s)
              ctx av iv elems a t).1⟩,
           ⟨iv, w⟩,
           (foldLoop (fun s => Eval cond s) (fun s => Eval step s) ctx av iv elems a t).2) := by
  intro elems
  induction elems with
  | nil =>
    intro av iv a w0 t
    exact ⟨w0, by simp [pooledFoldLoop, foldLoop]⟩
  | cons v rest ih =>
    intro av iv a w0 t
    simp only [pooledFoldLoop, foldLoop, VarSlot.asAct, Option.getD_some]
    exact ih av iv _ (some v) _

/-- Claim C8 (amended): a fold evaluation assigns each checked-out
activation slot before using it in any scope and returns both activations
to the pool on its single post-checkout exit path (a non-iterable range
returns before any checkout and leaves the pool untouched); the value
slots are *not* reset on return, but the result and trace agree with the
pure (pool-free) semantics for every initial pool, so stale slot contents
never influence any evaluation. -/
theorem exhaustiveFold_pool_discipline (id : Int) (accuVar iterVar : String)
    (iterRange accu cond step result : Interp) (ctx : Act) (pool : Pool) :
    (evalExhaustiveFoldPooled accuVar iterVar iterRange accu cond step result ctx pool).1
        = (Eval (.evalExhaustiveFold id accuVar iterVar iterRange accu cond step result) ctx).1
    ∧ (evalExhaustiveFoldPooled accuVar iterVar iterRange accu cond step result ctx pool).2.1
        = (Eval (.evalExhaustiveFold id accuVar iterVar iterRange accu cond step result) ctx).2
    ∧ ((Eval iterRange ctx).1.iterElems = none →
        (evalExhaustiveFoldPooled accuVar iterVar iterRange accu cond step result ctx pool).2.2
          = pool)
    ∧ (∀ elems, (Eval iterRange ctx).1.iterElems = some elems →
        ∃ aS iS,
          (evalExhaustiveFoldPooled accuVar iterVar iterRange accu cond step result ctx pool).2.2
              = aS :: iS :: (poolGet (poolGet pool).2).2
            ∧ aS.name = accuVar ∧ aS.val.isSome = true ∧ iS.name = iterVar) := by
  rcases h : (Eval iterRange ctx).1.iterElems with _ | elems
  · refine ⟨?_, ?_, fun _ => ?_, fun elems2 he2 => absurd he2 (by simp)⟩
    · simp [evalExhaustiveFoldPooled, Eval, h]
    · simp [evalExhaustiveFoldPooled, Eval, h]
    · simp [evalExhaustiveFoldPooled, h]
  · obtain ⟨w, hw⟩ := pooledFoldLoop_spec cond step ctx elems accuVar iterVar
      (Eval accu ctx).1 (poolGet (poolGet pool).2).1.val []
    refine ⟨?_, ?_, fun hn => absurd hn (by simp), fun elems2 he2 => ?_⟩
    · simp only [evalExhaustiveFoldPooled, Eval, h, hw, VarSlot.asAct, Option.getD_some]
    · simp only [evalExhaustiveFoldPooled, Eval, h, hw, VarSlot.asAct, Option.getD_some]
    · have he : elems2 = elems := by
        injection he2 with h3
        exact h3.symm
      subst he
      have hpool : (evalExhaustiveFoldPooled accuVar iterVar iterRange accu cond step result
            ctx pool).2.2
          = VarSlot.mk accuVar (some (foldLoop (fun s => Eval cond s) (fun s => Eval step s)
                ctx accuVar iterVar elems2 (Eval accu ctx).1 []).1)
            :: VarSlot.mk iterVar w :: (poolGet (poolGet pool).2).2 := by
        simp only [evalExhaustiveFoldPooled, h, hw, poolPut]
      exact ⟨_, _, hpool, rfl, rfl, rfl⟩

/-- Claim C8 (counterexample): after one fold evaluation from an empty
pool, both activations come back with their value slots still holding the
last bound values — the value slot is not reset after use, contrary to
the stated reset discipline. -/
theorem exhaustiveFold_pool_no_reset_counterexample :
    (evalExhaustiveFoldPooled "a" "i" (.evalConst 1 (.listV [.intV 1])) (.evalConst 2 (.intV 0))
        (.evalConst 3 (.boolV true)) (.evalConst 4 (.intV 5)) (.evalIdent 5 "a")
        Act.empty []).2.2
      = [⟨"a", some (.intV 5)⟩, ⟨"i", some (.intV 1)⟩]
    ∧ ∃ s ∈ (evalExhaustiveFoldPooled "a" "i" (.evalConst 1 (.listV [.intV 1]))
        (.evalConst 2 (.intV 0)) (.evalConst 3 (.boolV true)) (.evalConst 4 (.intV 5))
        (.evalIdent 5 "a") Act.empty []).2.2, s.val ≠ none := by
  have hp : (evalExhaustiveFoldPooled "a" "i" (.evalConst 1 (.listV [.intV 1]))
      (.evalConst 2 (.intV 0)) (.evalConst 3 (.boolV true)) (.evalConst 4 (.intV 5))
      (.evalIdent 5 "a") Act.empty []).2.2
      = [⟨"a", some (.intV 5)⟩, ⟨"i", some (.intV 1)⟩] := by
    simp [evalExhaustiveFoldPooled, pooledFoldLoop, Eval, RefVal.iterElems, poolGet, poolPut,
      VarSlot.asAct, Act.resolveName]
  refine ⟨hp, ?_⟩
  rw [hp]
  exact ⟨⟨"a", some (.intV 5)⟩, by simp, by simp⟩

/-- Claim C8 (witness): the pool discipline applied to a one-element fold
from the empty pool — the pooled result matches the pure semantics and
exactly the two checked-out activations are returned. -/
theorem exhaustiveFold_pool_discipline_witness :
    (evalExhaustiveFoldPooled "a" "i" (.evalConst 1 (.listV [.intV 2])) (.evalConst 2 (.intV 0))
        (.evalConst 3 (.boolV true)) (.evalConst 4 (.intV 7)) (.evalIdent 5 "a")
        Act.empty []).1
      = (Eval (.evalExhaustiveFold 9 "a" "i" (.evalConst 1 (.listV [.intV 2]))
          (.evalConst 2 (.intV 0)) (.evalConst 3 (.boolV true)) (.evalConst 4 (.intV 7))
          (.evalIdent 5 "a")) Act.empty).1
    ∧ (evalExhaustiveFoldPooled "a" "i" (.evalConst 1 (.listV [.intV 2])) (.evalConst 2 (.intV 0))
        (.evalConst 3 (.boolV true)) (.evalConst 4 (.intV 7)) (.evalIdent 5 "a")
        Act.empty []).2.2.length = 2 := by
  have h := exhaustiveFold_pool_discipline 9 "a" "i" (.evalConst 1 (.listV [.intV 2]))
    (.evalConst 2 (.intV 0)) (.evalConst 3 (.boolV true)) (.evalConst 4 (.intV 7))
    (.evalIdent 5 "a") Act.empty []
  refine ⟨h.1, ?_⟩
  obtain ⟨aS, iS, hp, _⟩ := h.2.2.2 [.intV 2] (by simp [Eval, RefVal.iterElems])
  simp [hp, poolGet]

end CelGo
